import Mathlib

set_option maxRecDepth 1000000

/-!
Verification development for the atomizer grammar engine
(`src/lib/grammar.js`).  The JavaScript module builds regular-expression
strings out of named fragments and matches them with JS `exec` semantics
(unanchored search, leftmost match, ordered alternation, greedy and lazy
quantifiers, named capture groups, negative lookahead).  We embed the
regexes as an inductive `RE` and give them a backtracking matcher
`runRE` that returns the ordered list of possible outcomes, so that the
head of the list at the first successful start position is exactly what
`XRegExp.exec` returns.
-/

namespace Atomizer

/- Character classes used by the grammar fragments. -/

def quoteChar : Char := Char.ofNat 39

def dquoteChar : Char := Char.ofNat 34

def obraceChar : Char := Char.ofNat 123

def oneNine (c : Char) : Bool := '1' ≤ c && c ≤ '9'

def lowHexDigit (c : Char) : Bool := c.isDigit || ('a' ≤ c && c ≤ 'f')

def asciiLetter (c : Char) : Bool := c.isAlpha

def lowerLetter (c : Char) : Bool := 'a' ≤ c && c ≤ 'z'

def wordChar (c : Char) : Bool := c.isAlphanum || c = '_'

def wordDollar (c : Char) : Bool := wordChar c || c = '$'

def unitChar (c : Char) : Bool := c.isAlpha || c = '%'

def valueChar (c : Char) : Bool :=
  c = '-' || c = '_' || c = ',' || c = '.' || c = '#' || c = '$' || c = '/' ||
    c = '%' || c.isAlphanum

def parentChar (c : Char) : Bool := c = '-' || c = '_' || c.isAlphanum

def sepChar (c : Char) : Bool := c = '>' || c = '_' || c = '+'

/-- The JS regex `.` : any character except a line terminator. -/
def jsDotChar (c : Char) : Bool :=
  !(c = Char.ofNat 10 || c = Char.ofNat 13 || c = Char.ofNat 0x2028 ||
    c = Char.ofNat 0x2029)

/-- The JS regex character class `\s`. -/
def jsWhitespace (c : Char) : Bool :=
  c = ' ' || c = Char.ofNat 9 || c = Char.ofNat 10 || c = Char.ofNat 11 ||
    c = Char.ofNat 12 || c = Char.ofNat 13 || c = Char.ofNat 0xa0 ||
    c = Char.ofNat 0x1680 ||
    (Char.ofNat 0x2000 ≤ c && c ≤ Char.ofNat 0x200a) ||
    c = Char.ofNat 0x2028 || c = Char.ofNat 0x2029 || c = Char.ofNat 0x202f ||
    c = Char.ofNat 0x205f || c = Char.ofNat 0x3000 || c = Char.ofNat 0xfeff

/-- `(?:^|\s|"|'|\{)` : the character alternative of the BOUNDARY fragment. -/
def boundaryChar (c : Char) : Bool :=
  jsWhitespace c || c = dquoteChar || c = quoteChar || c = obraceChar

/- The regex abstract syntax.  `star`'s Bool is true for greedy (`*`),
false for lazy (`*?`).  `a?` and `a+` are desugared (`a? = a|ε`,
`a+ = a a*`), which matches the backtracking priorities of JS exactly. -/

inductive RE where
  | eps : RE
  | bos : RE
  | cls : (Char → Bool) → RE
  | str : List Char → RE
  | cat : RE → RE → RE
  | alt : RE → RE → RE
  | star : RE → Bool → RE
  | group : String → RE → RE
  | nla : RE → RE
deriving Inhabited

/-- Greedy (`r?`) or lazy (`r??`) optional, as JS orders the attempts. -/
def optRE (greedy : Bool) (r : RE) : RE :=
  if greedy then .alt r .eps else .alt .eps r

/-- Greedy (`r+`) or lazy (`r+?`) repetition, one or more. -/
def plusRE (greedy : Bool) (r : RE) : RE := .cat r (.star r greedy)

def strRE (s : String) : RE := .str s.data

/-- Named captures, most recently assigned first. -/
abbrev Caps := List (String × String)

/-- One matcher outcome: remaining input, end position, captures made. -/
abbrev Out := List Char × Nat × Caps

/-- Match a literal: `dropPref l s = some t` iff `s = l ++ t`. -/
def dropPref : List Char → List Char → Option (List Char)
  | [], s => some s
  | _ :: _, [] => none
  | a :: l, b :: s => if a = b then dropPref l s else none

/--
All ways `re` can match a prefix of `s` (which starts at absolute
position `pos` of the subject), in the priority order a JS backtracking
engine explores them.  Each outcome carries only the captures made by
this sub-match.  `fuel` bounds recursion depth; `exec` supplies enough
fuel that it never runs out on the patterns of this file.
-/
def runRE : Nat → RE → List Char → Nat → List Out
  | 0, _, _, _ => []
  | f + 1, re, s, pos =>
    match re with
    | .eps => [(s, pos, [])]
    | .bos => if pos = 0 then [(s, pos, [])] else []
    | .cls p =>
      match s with
      | [] => []
      | c :: t => if p c then [(t, pos + 1, [])] else []
    | .str l =>
      match dropPref l s with
      | some t => [(t, pos + l.length, [])]
      | none => []
    | .cat a b =>
      (runRE f a s pos).flatMap fun o =>
        (runRE f b o.1 o.2.1).map fun o2 => (o2.1, o2.2.1, o2.2.2 ++ o.2.2)
    | .alt a b => runRE f a s pos ++ runRE f b s pos
    | .star r greedy =>
      let conts :=
        ((runRE f r s pos).filter fun o => pos < o.2.1).flatMap fun o =>
          (runRE f (.star r greedy) o.1 o.2.1).map fun o2 =>
            (o2.1, o2.2.1, o2.2.2 ++ o.2.2)
      if greedy then conts ++ [(s, pos, [])] else (s, pos, []) :: conts
    | .group n r =>
      (runRE f r s pos).map fun o =>
        (o.1, o.2.1, (n, String.mk (s.take (o.2.1 - pos))) :: o.2.2)
    | .nla r => if (runRE f r s pos).isEmpty then [(s, pos, [])] else []

/-- Structural size of a regex, used to compute a sufficient fuel. -/
def reSize : RE → Nat
  | .eps => 1
  | .bos => 1
  | .cls _ => 1
  | .str l => l.length + 1
  | .cat a b => reSize a + reSize b + 1
  | .alt a b => reSize a + reSize b + 1
  | .star r _ => reSize r + 1
  | .group _ r => reSize r + 1
  | .nla r => reSize r + 1

/-- `exec` helper: try a match at each start position, leftmost first. -/
def execFrom (f : Nat) (re : RE) : List Char → Nat → Option (Nat × Nat × Caps)
  | [], pos =>
    match runRE f re [] pos with
    | o :: _ => some (pos, o.2.1, o.2.2)
    | [] => none
  | c :: rest, pos =>
    match runRE f re (c :: rest) pos with
    | o :: _ => some (pos, o.2.1, o.2.2)
    | [] => execFrom f re rest (pos + 1)

/--
JS `RegExp.exec` over the embedding: the first start position with a
match wins, and there the engine's first outcome is returned.  The
result is `(start, end, captures)`.
-/
def exec (re : RE) (s : String) : Option (Nat × Nat × Caps) :=
  execFrom ((reSize re + 1) * (s.data.length + 2)) re s.data 0

/-- Look a named capture up in a match result. -/
def mGroup (m : Option (Nat × Nat × Caps)) (n : String) : Option String :=
  match m with
  | none => none
  | some (_, _, c) => c.lookup n

/-!
The fixed pseudo-class table `PSEUDOS` of `grammar.js`, in its literal
(insertion) order, and the derived inverse map and alternation list.
-/

def PSEUDOS : List (String × String) :=
  [(":active", ":a"), (":checked", ":c"), (":default", ":d"),
   (":disabled", ":di"), (":empty", ":e"), (":enabled", ":en"),
   (":first", ":fi"), (":first-child", ":fc"), (":first-of-type", ":fot"),
   (":fullscreen", ":fs"), (":focus", ":f"), (":hover", ":h"),
   (":indeterminate", ":ind"), (":in-range", ":ir"), (":invalid", ":inv"),
   (":last-child", ":lc"), (":last-of-type", ":lot"), (":left", ":l"),
   (":link", ":li"), (":only-child", ":oc"), (":only-of-type", ":oot"),
   (":optional", ":o"), (":out-of-range", ":oor"), (":read-only", ":ro"),
   (":read-write", ":rw"), (":required", ":req"), (":right", ":r"),
   (":root", ":rt"), (":scope", ":s"), (":target", ":t"),
   (":valid", ":va"), (":visited", ":vi")]

def PSEUDOS_INVERTED : List (String × String) :=
  PSEUDOS.map fun p => (p.2, p.1)

/-- `PSEUDO_REGEX` before joining: canonical name then alias, per entry. -/
def PSEUDO_REGEX_LIST : List String :=
  PSEUDOS.flatMap fun p => [p.1, p.2]

/-- Alternation of string literals, first alternative highest priority. -/
def altStrs : List String → RE
  | [] => .str []
  | [x] => strRE x
  | x :: xs => .alt (strRE x) (altStrs xs)

/-!
The fragment library `GRAMMAR` of `grammar.js`.  Notable faithfulness
points: in `NUMBER` the source JS string is `'-?[0-9]+(?:\.[0-9]+)?|\\.[0-9]+'`,
and `'\.'` in a single-quoted JS string is just `.` — the fractional
separator of the first alternative is the any-character class, while
the bare-fraction alternative uses a literal dot.  `HEX` accepts only
lowercase hex digits.
-/

def BOUNDARY : RE := .alt .bos (.cls boundaryChar)

def PARENT : RE := .cat (.cls asciiLetter) (plusRE false (.cls parentChar))

def PARENT_SEP : RE := .cls sepChar

def VALUES : RE := plusRE true (.cls valueChar)

def FRACTION : RE :=
  .cat (.group "numerator" (plusRE true (.cls Char.isDigit)))
    (.cat (strRE "/")
      (.group "denominator"
        (.cat (.cls oneNine) (optRE true (plusRE true (.cls Char.isDigit))))))

def NUMBER : RE :=
  .alt
    (.cat (optRE true (strRE "-"))
      (.cat (plusRE true (.cls Char.isDigit))
        (optRE true (.cat (.cls jsDotChar) (plusRE true (.cls Char.isDigit))))))
    (.cat (strRE ".") (plusRE true (.cls Char.isDigit)))

def UNIT : RE := plusRE true (.cls unitChar)

def HEX3 : RE := .cat (.cls lowHexDigit) (.cat (.cls lowHexDigit) (.cls lowHexDigit))

def HEX : RE := .cat (strRE "#") (.cat HEX3 (optRE true HEX3))

def ALPHA : RE :=
  .cat (strRE ".") (.cat (.cls Char.isDigit) (optRE true (.cls Char.isDigit)))

def IMPORTANT : RE := strRE "!"

def NAMED : RE :=
  .cat (plusRE true (.cls wordDollar))
    (.star
      (.cat (optRE true (.cat (strRE "-") (.nla (strRE "-"))))
        (.star (.cls wordChar) true))
      true)

def PSEUDO : RE := .cat (altStrs PSEUDO_REGEX_LIST) (.nla (.cls lowerLetter))

def PSEUDO_SIMPLE : RE := .cat (strRE ":") (plusRE true (.cls lowerLetter))

def BREAKPOINT : RE :=
  .cat (strRE "--") (.group "breakPoint" (plusRE true (.cls lowerLetter)))

def PARENT_SELECTOR : RE :=
  .cat (.group "parent" PARENT)
    (.cat (optRE true (.group "parentPseudo" PSEUDO))
      (.group "parentSep" PARENT_SEP))

def PARENT_SELECTOR_SIMPLE : RE :=
  .cat (.group "parent" PARENT)
    (.cat (optRE true (.group "parentPseudo" PSEUDO_SIMPLE))
      (.group "parentSep" PARENT_SEP))

/- The four alternatives of `VALUE_SYNTAXE`, in source order. -/

def FRACTION_BRANCH : RE := .group "fraction" FRACTION

def HEX_BRANCH : RE :=
  .cat (.group "hex" HEX)
    (.cat (optRE true (.group "alpha" ALPHA)) (.nla UNIT))

def NUMBER_BRANCH : RE :=
  .cat (.group "number" NUMBER) (optRE true (.group "unit" UNIT))

def NAMED_BRANCH : RE := .group "named" NAMED

def VALUE_SYNTAXE : RE :=
  .alt FRACTION_BRANCH (.alt HEX_BRANCH (.alt NUMBER_BRANCH NAMED_BRANCH))

/-!
The sorted-keys helper and `buildRegex`.  The JS comparator
`a > b ? -1 : 1` sorts string keys in descending lexicographic order;
we model it with an insertion sort over a boolean lexicographic
comparison of the character data.
-/

def charLtB (a b : Char) : Bool := decide (a.toNat < b.toNat)

def listCharLt : List Char → List Char → Bool
  | [], [] => false
  | [], _ :: _ => true
  | _ :: _, [] => false
  | a :: as, b :: bs =>
    if charLtB a b then true else if charLtB b a then false else listCharLt as bs

def strLtB (a b : String) : Bool := listCharLt a.data b.data

def insertDesc (x : String) : List String → List String
  | [] => [x]
  | y :: ys => if strLtB y x then x :: y :: ys else y :: insertDesc x ys

def sortDesc : List String → List String
  | [] => []
  | x :: xs => insertDesc x (sortDesc xs)

/-- `getSortedKeys`: keys sorted descending and joined with a bar. -/
def getSortedKeys (keys : List String) : String :=
  String.intercalate "|" (sortDesc keys)

/--
`buildRegex(map, isParamRequired)`.  The source appends `?` to the
parenthesised parameter group exactly when `isParamRequired` is truthy,
and yields a falsy value (modelled `none`) when the joined key string
is empty.
-/
def buildRegex (keys : List String) (isParamRequired : Bool) : Option RE :=
  if (getSortedKeys keys).length = 0 then none
  else
    let pp := .cat (strRE "(") (.cat (.group "atomicValues" VALUES) (strRE ")"))
    some (.cat (.group "prop" (altStrs (sortDesc keys)))
      (if isParamRequired then optRE true pp else pp))

/-- The `Grammar` object state: the list built by `addSyntaxRegex`. -/
structure Grammar where
  mainSyntaxList : List RE

/--
The constructor `Grammar(rulesMap, helpersMap)`: it pushes
`buildRegex(rulesMap)` (flag undefined, hence falsy) and
`buildRegex(helpersMap, false)`, skipping falsy results.
-/
def Grammar.make (rulesKeys helpersKeys : List String) : Grammar :=
  { mainSyntaxList :=
      (match buildRegex rulesKeys false with
       | some r => [r]
       | none => []) ++
      (match buildRegex helpersKeys false with
       | some r => [r]
       | none => []) }

/-- The property names every plain object literal inherits from
`Object.prototype`; reading any of them yields a function (or, for
`__proto__`, the prototype object itself), which is truthy. -/
def objectProtoProps : List String :=
  ["constructor", "hasOwnProperty", "isPrototypeOf", "propertyIsEnumerable",
   "toLocaleString", "toString", "valueOf", "__defineGetter__",
   "__defineSetter__", "__lookupGetter__", "__lookupSetter__", "__proto__"]

/-- Truthiness of the JS property read `entries[n]` on a plain object:
an own entry is truthy when its string value is nonempty; a name with
no own entry still hits the prototype chain, and every
`Object.prototype` member is truthy. -/
def jsPropTruthy (entries : List (String × String)) (n : String) : Bool :=
  match entries.lookup n with
  | some v => !(v == "")
  | none => decide (n ∈ objectProtoProps)

/-- `Grammar.getPseudo`: canonicalise a pseudo-class name.  The test
`PSEUDOS[pseudoName] ?` is modelled with the prototype chain included
(`jsPropTruthy`).  On the else branch the name has no own entry in
`PSEUDOS` and is not an `Object.prototype` member (those are all
truthy and caught by the test), so the read
`PSEUDOS_INVERTED[pseudoName]` — `PSEUDOS_INVERTED` being a plain
object with the same prototype — can only see own entries and is
modelled by the own-entry lookup; `else_branch_no_inherited` below
checks this. -/
def Grammar.getPseudo (pseudoName : String) : Option String :=
  if jsPropTruthy PSEUDOS pseudoName then some pseudoName
  else PSEUDOS_INVERTED.lookup pseudoName

/-- `Grammar.matchValue`: `XRegExp.exec(value, VALUE_SYNTAXE)`. -/
def Grammar.matchValue (value : String) : Option (Nat × Nat × Caps) :=
  exec VALUE_SYNTAXE value

def altList : List RE → RE
  | [] => .str []
  | [r] => r
  | r :: rs => .alt r (altList rs)

/--
`Grammar.prototype.getMainSyntax(isSimple)`.  With an empty
`mainSyntax` list the source yields `undefined`, modelled `none`
(`Array.prototype.join` later renders it as the empty fragment).
-/
def Grammar.getMainSyntaxRE (g : Grammar) (isSimple : Bool) : Option RE :=
  if isSimple then
    some (.cat (.group "prop" (plusRE true (.cls asciiLetter)))
      (.cat (strRE "(") (.cat (.group "atomicValues" VALUES) (strRE ")"))))
  else
    match g.mainSyntaxList with
    | [] => none
    | [r] => some r
    | rs => some (altList rs)

/-- `Grammar.prototype.getSyntax(isSimple)`: the full token pattern. -/
def Grammar.getSyntaxRE (g : Grammar) (isSimple : Bool) : RE :=
  .cat BOUNDARY
    (.cat
      (optRE true (.group "parentSelector"
        (if isSimple then PARENT_SELECTOR_SIMPLE else PARENT_SELECTOR)))
      (.cat ((g.getMainSyntaxRE isSimple).getD .eps)
        (.cat (optRE true (.group "important" IMPORTANT))
          (.cat
            (optRE true (.group "valuePseudo"
              (if isSimple then PSEUDO_SIMPLE else PSEUDO)))
            (optRE true BREAKPOINT)))))

/-- Running the assembled token pattern over a candidate string. -/
def Grammar.matchToken (g : Grammar) (isSimple : Bool) (s : String) :
    Option (Nat × Nat × Caps) :=
  exec (g.getSyntaxRE isSimple) s

/- Concrete grammar instances used by the claims. -/

def grammarBBgc : Grammar := Grammar.make ["B", "Bgc"] []

def grammarMbBgc : Grammar := Grammar.make ["Mb", "Bgc"] []

def grammarHelpersHidden : Grammar := Grammar.make [] ["Hidden"]

def grammarEmpty : Grammar := Grammar.make [] []

/-!
Order lemmas for the descending sort used by `getSortedKeys`.
-/

/-- `prefB a b` holds iff `a` is a (not necessarily strict) initial
segment of `b`. -/
def prefB : List Char → List Char → Bool
  | [], _ => true
  | _ :: _, [] => false
  | a :: as, b :: bs => a == b && prefB as bs

/-- One identifier is a strict initial segment of another. -/
def StrictPref (a b : String) : Prop := prefB a.data b.data = true ∧ a ≠ b

/-- The capture-group names occurring in a regex. -/
def groupNames : RE → List String
  | .eps => []
  | .bos => []
  | .cls _ => []
  | .str _ => []
  | .cat a b => groupNames a ++ groupNames b
  | .alt a b => groupNames a ++ groupNames b
  | .star r _ => groupNames r
  | .group n r => n :: groupNames r
  | .nla r => groupNames r

/-- The names of the four `VALUE_SYNTAXE` variants. -/
def VARIANT_NAMES : List String := ["fraction", "hex", "number", "named"]

/-- The first three characters exist and are lowercase hex digits. -/
def take3good : List Char → Bool
  | c1 :: c2 :: c3 :: _ => lowHexDigit c1 && lowHexDigit c2 && lowHexDigit c3
  | _ => false

/-- A suffix on which the `HEX` fragment cannot start a match: either
it does not start with a hash, or the three characters after the hash
are not all lowercase hex digits. -/
def hashShapeBad : List Char → Prop
  | [] => True
  | c :: t => c ≠ '#' ∨ take3good t = false

/-- `re` has no match at this suffix, whatever the fuel. -/
def Dead (re : RE) (s : List Char) (pos : Nat) : Prop :=
  ∀ f, runRE f re s pos = []

/- Definitional unfoldings of `runRE` at positive fuel, stated once so
the provenance proofs can rewrite with them. -/

theorem runRE_eps (f : Nat) (s : List Char) (pos : Nat) :
    runRE (f + 1) .eps s pos = [(s, pos, [])] := rfl

theorem runRE_bos (f : Nat) (s : List Char) (pos : Nat) :
    runRE (f + 1) .bos s pos = if pos = 0 then [(s, pos, [])] else [] := rfl

theorem runRE_cls_nil (f : Nat) (p : Char → Bool) (pos : Nat) :
    runRE (f + 1) (.cls p) [] pos = [] := rfl

theorem runRE_cls_cons (f : Nat) (p : Char → Bool) (c : Char) (t : List Char)
    (pos : Nat) :
    runRE (f + 1) (.cls p) (c :: t) pos =
      if p c then [(t, pos + 1, [])] else [] := rfl

theorem runRE_str (f : Nat) (l s : List Char) (pos : Nat) :
    runRE (f + 1) (.str l) s pos =
      match dropPref l s with
      | some t => [(t, pos + l.length, [])]
      | none => [] := rfl

theorem runRE_cat (f : Nat) (a b : RE) (s : List Char) (pos : Nat) :
    runRE (f + 1) (.cat a b) s pos =
      (runRE f a s pos).flatMap fun o =>
        (runRE f b o.1 o.2.1).map fun o2 => (o2.1, o2.2.1, o2.2.2 ++ o.2.2) := rfl

theorem runRE_alt (f : Nat) (a b : RE) (s : List Char) (pos : Nat) :
    runRE (f + 1) (.alt a b) s pos = runRE f a s pos ++ runRE f b s pos := rfl

theorem runRE_star_true (f : Nat) (r : RE) (s : List Char) (pos : Nat) :
    runRE (f + 1) (.star r true) s pos =
      (((runRE f r s pos).filter fun o => pos < o.2.1).flatMap fun o =>
        (runRE f (.star r true) o.1 o.2.1).map fun o2 =>
          (o2.1, o2.2.1, o2.2.2 ++ o.2.2)) ++ [(s, pos, [])] := rfl

theorem runRE_star_false (f : Nat) (r : RE) (s : List Char) (pos : Nat) :
    runRE (f + 1) (.star r false) s pos =
      (s, pos, []) ::
        ((runRE f r s pos).filter fun o => pos < o.2.1).flatMap fun o =>
          (runRE f (.star r false) o.1 o.2.1).map fun o2 =>
            (o2.1, o2.2.1, o2.2.2 ++ o.2.2) := rfl

theorem runRE_group (f : Nat) (n : String) (r : RE) (s : List Char) (pos : Nat) :
    runRE (f + 1) (.group n r) s pos =
      (runRE f r s pos).map fun o =>
        (o.1, o.2.1, (n, String.mk (s.take (o.2.1 - pos))) :: o.2.2) := rfl

theorem runRE_nla (f : Nat) (r : RE) (s : List Char) (pos : Nat) :
    runRE (f + 1) (.nla r) s pos =
      if (runRE f r s pos).isEmpty then [(s, pos, [])] else [] := rfl

theorem charLtB_iff {a b : Char} : charLtB a b = true ↔ a.toNat < b.toNat := by
  simp [charLtB]

theorem charLtB_false_iff {a b : Char} : charLtB a b = false ↔ ¬ a.toNat < b.toNat := by
  simp [charLtB]

theorem listCharLt_irrefl : ∀ l : List Char, listCharLt l l = false := by
  intro l
  induction l with
  | nil => rfl
  | cons a as ih => simp [listCharLt, charLtB, ih]

theorem listCharLt_trans {a b c : List Char} (h1 : listCharLt a b = true)
    (h2 : listCharLt b c = true) : listCharLt a c = true := by
  induction a generalizing b c with
  | nil =>
    cases b with
    | nil => simp [listCharLt] at h1
    | cons y ys =>
      cases c with
      | nil => simp [listCharLt] at h2
      | cons z zs => simp [listCharLt]
  | cons x xs ih =>
    cases b with
    | nil => simp [listCharLt] at h1
    | cons y ys =>
      cases c with
      | nil => simp [listCharLt] at h2
      | cons z zs =>
        rw [listCharLt] at h1 h2 ⊢
        cases hxy : charLtB x y <;> rw [hxy] at h1 <;>
          cases hyz : charLtB y z <;> rw [hyz] at h2
        · cases hyx : charLtB y x <;> rw [hyx] at h1
          · cases hzy : charLtB z y <;> rw [hzy] at h2
            · have hx := charLtB_false_iff.1 hxy
              have hy' := charLtB_false_iff.1 hyx
              have hz := charLtB_false_iff.1 hyz
              have hz' := charLtB_false_iff.1 hzy
              have e1 : charLtB x z = false := charLtB_false_iff.2 (by omega)
              have e2 : charLtB z x = false := charLtB_false_iff.2 (by omega)
              rw [e1, e2]
              simp only [if_neg, Bool.false_eq_true, if_false] at h1 h2 ⊢
              exact ih h1 h2
            · simp at h2
          · simp at h1
        · cases hyx : charLtB y x <;> rw [hyx] at h1
          · have hx := charLtB_false_iff.1 hxy
            have hy' := charLtB_false_iff.1 hyx
            have hz := charLtB_iff.1 hyz
            have e1 : charLtB x z = true := charLtB_iff.2 (by omega)
            rw [e1]
            simp
          · simp at h1
        · cases hzy : charLtB z y <;> rw [hzy] at h2
          · have hx := charLtB_iff.1 hxy
            have hz := charLtB_false_iff.1 hyz
            have hz' := charLtB_false_iff.1 hzy
            have e1 : charLtB x z = true := charLtB_iff.2 (by omega)
            rw [e1]
            simp
          · simp at h2
        · have hx := charLtB_iff.1 hxy
          have hz := charLtB_iff.1 hyz
          have e1 : charLtB x z = true := charLtB_iff.2 (by omega)
          rw [e1]
          simp

theorem listCharLt_asymm {a b : List Char} (h : listCharLt a b = true) :
    listCharLt b a = false := by
  cases hx : listCharLt b a
  · rfl
  · have := listCharLt_trans h hx
    rw [listCharLt_irrefl] at this
    exact Bool.noConfusion this

theorem strLtB_trans {a b c : String} (h1 : strLtB a b = true)
    (h2 : strLtB b c = true) : strLtB a c = true :=
  listCharLt_trans h1 h2

theorem strLtB_asymm {a b : String} (h : strLtB a b = true) : strLtB b a = false :=
  listCharLt_asymm h

theorem mem_insertDesc {x z : String} : ∀ l, z ∈ insertDesc x l → z = x ∨ z ∈ l := by
  intro l
  induction l with
  | nil =>
    intro h
    simp [insertDesc] at h
    exact Or.inl h
  | cons y ys ih =>
    intro h
    rw [insertDesc] at h
    by_cases hc : strLtB y x = true
    · rw [if_pos hc] at h
      rcases List.mem_cons.1 h with h | h
      · exact Or.inl h
      · exact Or.inr h
    · rw [if_neg hc] at h
      rcases List.mem_cons.1 h with h | h
      · exact Or.inr (List.mem_cons.2 (Or.inl h))
      · rcases ih h with h | h
        · exact Or.inl h
        · exact Or.inr (List.mem_cons.2 (Or.inr h))

theorem insertDesc_pairwise {x : String} :
    ∀ l, l.Pairwise (fun a b => strLtB a b = false) →
      (insertDesc x l).Pairwise (fun a b => strLtB a b = false) := by
  intro l
  induction l with
  | nil =>
    intro _
    simp [insertDesc]
  | cons y ys ih =>
    intro hp
    rw [List.pairwise_cons] at hp
    obtain ⟨hy, hys⟩ := hp
    rw [insertDesc]
    by_cases h : strLtB y x = true
    · rw [if_pos h, List.pairwise_cons]
      refine ⟨?_, List.pairwise_cons.2 ⟨hy, hys⟩⟩
      intro z hz
      rcases List.mem_cons.1 hz with hz | hz
      · subst hz
        exact strLtB_asymm h
      · cases hxz : strLtB x z
        · rfl
        · have := strLtB_trans h hxz
          rw [hy z hz] at this
          exact Bool.noConfusion this
    · rw [if_neg h, List.pairwise_cons]
      refine ⟨?_, ih hys⟩
      intro z hz
      rcases mem_insertDesc _ hz with hz | hz
      · subst hz
        cases hx : strLtB y z
        · rfl
        · exact absurd hx h
      · exact hy z hz

theorem sortDesc_pairwise (l : List String) :
    (sortDesc l).Pairwise (fun a b => strLtB a b = false) := by
  induction l with
  | nil => exact List.Pairwise.nil
  | cons x xs ih => exact insertDesc_pairwise _ ih

theorem pref_listCharLt : ∀ x y : List Char, prefB x y = true → x ≠ y →
    listCharLt x y = true := by
  intro x
  induction x with
  | nil =>
    intro y _ hne
    cases y with
    | nil => exact absurd rfl hne
    | cons b bs => rfl
  | cons a as ih =>
    intro y hp hne
    cases y with
    | nil => simp [prefB] at hp
    | cons b bs =>
      simp only [prefB, Bool.and_eq_true, beq_iff_eq] at hp
      obtain ⟨rfl, hp⟩ := hp
      have hne' : as ≠ bs := fun h => hne (by rw [h])
      simp [listCharLt, charLtB, ih bs hp hne']

theorem strictPref_lt {a b : String} (h : StrictPref a b) : strLtB a b = true := by
  obtain ⟨hp, hne⟩ := h
  have hd : a.data ≠ b.data := by
    intro hx
    cases a with
    | mk l1 =>
      cases b with
      | mk l2 => exact hne (congrArg String.mk hx)
  exact pref_listCharLt _ _ hp hd

/-- In the sorted alternation order no identifier is a strict initial
segment of a later one (equivalently, of one attempted after it). -/
theorem sortDesc_no_earlier_pref (l : List String) :
    (sortDesc l).Pairwise (fun a b => ¬ StrictPref a b) := by
  refine (sortDesc_pairwise l).imp ?_
  intro a b hab hs
  rw [strictPref_lt hs] at hab
  exact Bool.noConfusion hab

/-!
Capture provenance: a sub-match of `re` only produces captures for
group names that occur in `re`.  Together with the shape of
`VALUE_SYNTAXE` (an alternation of four branches with disjoint group
names) this gives the mutual exclusion of the value variants.
-/

theorem runRE_names (f : Nat) : ∀ (re : RE) (s : List Char) (pos : Nat),
    ∀ o ∈ runRE f re s pos, ∀ q ∈ o.2.2, q.1 ∈ groupNames re := by
  induction f with
  | zero =>
    intro re s pos o ho
    simp [runRE] at ho
  | succ f ih =>
    intro re s pos o ho q hq
    cases re with
    | eps =>
      simp only [runRE, List.mem_singleton] at ho
      subst ho
      simp at hq
    | bos =>
      rw [runRE] at ho
      by_cases hp : pos = 0
      · rw [if_pos hp] at ho
        simp only [List.mem_singleton] at ho
        subst ho
        simp at hq
      · rw [if_neg hp] at ho
        simp at ho
    | cls p =>
      cases s with
      | nil =>
        rw [runRE_cls_nil] at ho
        simp at ho
      | cons c t =>
        rw [runRE_cls_cons] at ho
        by_cases hp : p c = true
        · rw [if_pos hp] at ho
          simp only [List.mem_singleton] at ho
          subst ho
          simp at hq
        · rw [if_neg hp] at ho
          simp at ho
    | str l =>
      rw [runRE_str] at ho
      cases hd : dropPref l s with
      | none =>
        rw [hd] at ho
        simp at ho
      | some t =>
        rw [hd] at ho
        simp only [List.mem_singleton] at ho
        subst ho
        simp at hq
    | cat a b =>
      rw [runRE_cat] at ho
      rw [List.mem_flatMap] at ho
      obtain ⟨o1, ho1, ho2⟩ := ho
      rw [List.mem_map] at ho2
      obtain ⟨o2, ho2, rfl⟩ := ho2
      simp only at hq
      rcases List.mem_append.1 hq with hq | hq
      · exact List.mem_append.2 (Or.inr (ih b o1.1 o1.2.1 o2 ho2 q hq))
      · exact List.mem_append.2 (Or.inl (ih a s pos o1 ho1 q hq))
    | alt a b =>
      rw [runRE_alt] at ho
      rcases List.mem_append.1 ho with ho | ho
      · exact List.mem_append.2 (Or.inl (ih a s pos o ho q hq))
      · exact List.mem_append.2 (Or.inr (ih b s pos o ho q hq))
    | star r greedy =>
      have hconts : ∀ o', o' ∈ (((runRE f r s pos).filter fun o =>
          pos < o.2.1).flatMap fun o =>
            (runRE f (.star r greedy) o.1 o.2.1).map fun o2 =>
              (o2.1, o2.2.1, o2.2.2 ++ o.2.2)) →
          ∀ q' ∈ o'.2.2, q'.1 ∈ groupNames (RE.star r greedy) := by
        intro o' ho' q' hq'
        rw [List.mem_flatMap] at ho'
        obtain ⟨o1, ho1, ho2⟩ := ho'
        rw [List.mem_filter] at ho1
        rw [List.mem_map] at ho2
        obtain ⟨o2, ho2, rfl⟩ := ho2
        simp only at hq'
        rcases List.mem_append.1 hq' with hq' | hq'
        · exact ih (.star r greedy) o1.1 o1.2.1 o2 ho2 q' hq'
        · exact ih r s pos o1 ho1.1 q' hq'
      cases greedy with
      | true =>
        rw [runRE_star_true] at ho
        rcases List.mem_append.1 ho with ho | ho
        · exact hconts o ho q hq
        · simp only [List.mem_singleton] at ho
          subst ho
          simp at hq
      | false =>
        rw [runRE_star_false] at ho
        rcases List.mem_cons.1 ho with ho | ho
        · subst ho
          simp at hq
        · exact hconts o ho q hq
    | group n r =>
      rw [runRE_group] at ho
      rw [List.mem_map] at ho
      obtain ⟨o1, ho1, rfl⟩ := ho
      simp only at hq
      rcases List.mem_cons.1 hq with hq | hq
      · subst hq
        simp [groupNames]
      · exact List.mem_cons.2 (Or.inr (ih r s pos o1 ho1 q hq))
    | nla r =>
      rw [runRE_nla] at ho
      by_cases he : ((runRE f r s pos).isEmpty : Bool) = true
      · rw [if_pos he] at ho
        simp only [List.mem_singleton] at ho
        subst ho
        simp at hq
      · rw [if_neg he] at ho
        simp at ho

/-- A successful `execFrom` result is the head of the outcome list at
some suffix of the subject (given by the match's start position). -/
theorem execFrom_eq_some (f : Nat) (re : RE) :
    ∀ (s : List Char) (pos st en : Nat) (c : Caps),
      execFrom f re s pos = some (st, en, c) →
      ∃ k o, o ∈ runRE f re (s.drop k) (pos + k) ∧
        o.2.1 = en ∧ o.2.2 = c ∧ st = pos + k := by
  intro s
  induction s with
  | nil =>
    intro pos st en c h
    rw [execFrom] at h
    cases hr : runRE f re [] pos with
    | nil =>
      rw [hr] at h
      exact absurd h (by simp)
    | cons o t =>
      rw [hr] at h
      simp only [Option.some.injEq, Prod.mk.injEq] at h
      obtain ⟨h1, h2, h3⟩ := h
      subst h1
      refine ⟨0, o, ?_, h2, h3, by omega⟩
      simp [hr]
  | cons ch rest ih =>
    intro pos st en c h
    rw [execFrom] at h
    cases hr : runRE f re (ch :: rest) pos with
    | cons o t =>
      rw [hr] at h
      simp only [Option.some.injEq, Prod.mk.injEq] at h
      obtain ⟨h1, h2, h3⟩ := h
      subst h1
      refine ⟨0, o, ?_, h2, h3, by omega⟩
      simp [hr]
    | nil =>
      rw [hr] at h
      obtain ⟨k, o, ho, h1, h2, h3⟩ := ih (pos + 1) st en c h
      refine ⟨k + 1, o, ?_, h1, h2, by omega⟩
      have hdrop : (ch :: rest).drop (k + 1) = rest.drop k := rfl
      rw [hdrop]
      have hpos : pos + (k + 1) = pos + 1 + k := by omega
      rw [hpos]
      exact ho

/-- A name looked up successfully is among the capture names. -/
theorem lookup_isSome_mem {c : Caps} {n : String} :
    (c.lookup n).isSome = true → n ∈ c.map Prod.fst := by
  induction c with
  | nil => simp [List.lookup]
  | cons p t ih =>
    intro h
    rw [List.lookup] at h
    cases he : (n == p.1) with
    | true =>
      rw [beq_iff_eq] at he
      subst he
      simp
    | false =>
      rw [he] at h
      simp only [List.map_cons, List.mem_cons]
      exact Or.inr (ih h)

/-- Splitting a `VALUE_SYNTAXE` outcome into the branch it came from. -/
theorem value_syntaxe_split {f : Nat} {s : List Char} {pos : Nat} {o : Out}
    (h : o ∈ runRE f VALUE_SYNTAXE s pos) :
    ∃ f', o ∈ runRE f' FRACTION_BRANCH s pos ∨ o ∈ runRE f' HEX_BRANCH s pos ∨
      o ∈ runRE f' NUMBER_BRANCH s pos ∨ o ∈ runRE f' NAMED_BRANCH s pos := by
  cases f with
  | zero => simp [runRE] at h
  | succ f =>
    rw [VALUE_SYNTAXE, runRE_alt] at h
    rcases List.mem_append.1 h with h | h
    · exact ⟨f, Or.inl h⟩
    · cases f with
      | zero => simp [runRE] at h
      | succ f =>
        rw [runRE_alt] at h
        rcases List.mem_append.1 h with h | h
        · exact ⟨f, Or.inr (Or.inl h)⟩
        · cases f with
          | zero => simp [runRE] at h
          | succ f =>
            rw [runRE_alt] at h
            rcases List.mem_append.1 h with h | h
            · exact ⟨f, Or.inr (Or.inr (Or.inl h))⟩
            · exact ⟨f, Or.inr (Or.inr (Or.inr h))⟩

/-!
Lemmas for showing a regex has no match at a given suffix (used to rule
the `HEX` branch out on payloads whose first three hex digits are not
all lowercase).
-/

theorem dead_cat_left {a : RE} (b : RE) {s : List Char} {pos : Nat}
    (h : Dead a s pos) : Dead (.cat a b) s pos := by
  intro f
  cases f with
  | zero => rfl
  | succ f => rw [runRE_cat, h f]; rfl

theorem dead_group {r : RE} (n : String) {s : List Char} {pos : Nat}
    (h : Dead r s pos) : Dead (.group n r) s pos := by
  intro f
  cases f with
  | zero => rfl
  | succ f => rw [runRE_group, h f]; rfl

theorem dead_cls_nil (p : Char → Bool) (pos : Nat) : Dead (.cls p) [] pos := by
  intro f
  cases f with
  | zero => rfl
  | succ f => rfl

theorem dead_cls_head {p : Char → Bool} {c : Char} (t : List Char) (pos : Nat)
    (h : p c = false) : Dead (.cls p) (c :: t) pos := by
  intro f
  cases f with
  | zero => rfl
  | succ f =>
    rw [runRE_cls_cons, if_neg]
    simp [h]

theorem dead_str {l s : List Char} (pos : Nat) (h : dropPref l s = none) :
    Dead (.str l) s pos := by
  intro f
  cases f with
  | zero => rfl
  | succ f =>
    rw [runRE_str, h]

theorem step_cat_str {l s rest : List Char} {b : RE} {pos : Nat}
    (h : dropPref l s = some rest) (hd : Dead b rest (pos + l.length)) :
    Dead (.cat (.str l) b) s pos := by
  intro f
  cases f with
  | zero => rfl
  | succ f =>
    rw [runRE_cat]
    cases f with
    | zero => rfl
    | succ f =>
      rw [runRE_str, h]
      simp [hd (f + 1)]

theorem step_cat_cls {p : Char → Bool} {c : Char} {t : List Char} {b : RE}
    {pos : Nat} (hp : p c = true) (hd : Dead b t (pos + 1)) :
    Dead (.cat (.cls p) b) (c :: t) pos := by
  intro f
  cases f with
  | zero => rfl
  | succ f =>
    rw [runRE_cat]
    cases f with
    | zero => rfl
    | succ f =>
      rw [runRE_cls_cons, if_pos hp]
      simp [hd (f + 1)]

theorem dead_HEX3 {s : List Char} (pos : Nat) (h : take3good s = false) :
    Dead HEX3 s pos := by
  cases s with
  | nil => exact dead_cat_left _ (dead_cls_nil _ _)
  | cons c1 t =>
    cases h1 : lowHexDigit c1 with
    | false => exact dead_cat_left _ (dead_cls_head _ _ h1)
    | true =>
      refine step_cat_cls h1 ?_
      cases t with
      | nil => exact dead_cat_left _ (dead_cls_nil _ _)
      | cons c2 t2 =>
        cases h2 : lowHexDigit c2 with
        | false => exact dead_cat_left _ (dead_cls_head _ _ h2)
        | true =>
          refine step_cat_cls h2 ?_
          cases t2 with
          | nil => exact dead_cls_nil _ _
          | cons c3 t3 =>
            have h3 : lowHexDigit c3 = false := by
              rw [take3good, h1, h2] at h
              simpa using h
            exact dead_cls_head _ _ h3

theorem dead_HEX {s : List Char} (pos : Nat) (h : hashShapeBad s) :
    Dead HEX s pos := by
  cases s with
  | nil =>
    exact dead_cat_left _ (dead_str _ rfl)
  | cons c t =>
    by_cases hc : c = '#'
    · subst hc
      have ht : take3good t = false := by
        rcases h with h | h
        · exact absurd rfl h
        · exact h
      exact step_cat_str rfl (dead_cat_left _ (dead_HEX3 _ ht))
    · refine dead_cat_left _ (dead_str _ ?_)
      rw [dropPref, if_neg (fun hh => hc hh.symm)]

theorem dead_HEX_BRANCH {s : List Char} (pos : Nat) (h : hashShapeBad s) :
    Dead HEX_BRANCH s pos :=
  dead_cat_left _ (dead_group _ (dead_HEX _ h))

theorem hashShapeBad_drop {cs : List Char} (h1 : ∀ c ∈ cs, c ≠ '#')
    (h2 : take3good cs = false) (k : Nat) :
    hashShapeBad (('#' :: cs).drop k) := by
  cases k with
  | zero => exact Or.inr h2
  | succ k =>
    have hdk : ('#' :: cs).drop (k + 1) = cs.drop k := rfl
    rw [hdk]
    cases hd : cs.drop k with
    | nil => trivial
    | cons c t =>
      have hmem : c ∈ cs := List.drop_subset k cs (hd ▸ List.mem_cons_self c t)
      exact Or.inl (h1 c hmem)

/--
Core of claim C9: on a payload that is a hash followed by characters
none of which is a hash and whose first three are not all lowercase
hex digits, `matchValue` can never populate the `hex` capture.
-/
theorem matchValue_hex_none {cs : List Char} (h1 : ∀ c ∈ cs, c ≠ '#')
    (h2 : take3good cs = false) :
    mGroup (Grammar.matchValue (String.mk ('#' :: cs))) "hex" = none := by
  cases hm : Grammar.matchValue (String.mk ('#' :: cs)) with
  | none => rfl
  | some m =>
    obtain ⟨st, en, c⟩ := m
    rw [mGroup]
    cases hl : c.lookup "hex" with
    | none => rfl
    | some v =>
      exfalso
      have hsome : (c.lookup "hex").isSome = true := by rw [hl]; rfl
      have hmm := lookup_isSome_mem hsome
      rw [List.mem_map] at hmm
      obtain ⟨q, hqc, hq1⟩ := hmm
      rw [Grammar.matchValue, exec] at hm
      obtain ⟨k, o, ho, _, hcap, _⟩ := execFrom_eq_some _ _ _ _ _ _ _ hm
      obtain ⟨f', hsplit⟩ := value_syntaxe_split ho
      have hqo : q ∈ o.2.2 := by rw [hcap]; exact hqc
      rcases hsplit with hb | hb | hb | hb
      · have := runRE_names f' FRACTION_BRANCH _ _ o hb q hqo
        rw [hq1] at this
        exact absurd this (by decide)
      · have hbad := hashShapeBad_drop h1 h2 k
        rw [dead_HEX_BRANCH _ hbad f'] at hb
        simp at hb
      · have := runRE_names f' NUMBER_BRANCH _ _ o hb q hqo
        rw [hq1] at this
        exact absurd this (by decide)
      · have := runRE_names f' NAMED_BRANCH _ _ o hb q hqo
        rw [hq1] at this
        exact absurd this (by decide)

/--
Mutual exclusion of the value variants: a successful `matchValue`
result can populate at most one of the four variant capture groups,
because the result comes from a single branch of the alternation and
the branches carry disjoint group names.
-/
theorem matchValue_exclusive (v : String) (st en : Nat) (c : Caps)
    (hm : Grammar.matchValue v = some (st, en, c)) :
    ∀ n1 ∈ VARIANT_NAMES, ∀ n2 ∈ VARIANT_NAMES,
      (c.lookup n1).isSome = true → (c.lookup n2).isSome = true → n1 = n2 := by
  intro n1 hn1 n2 hn2 h1 h2
  rw [Grammar.matchValue, exec] at hm
  obtain ⟨k, o, ho, _, hcap, _⟩ := execFrom_eq_some _ _ _ _ _ _ _ hm
  obtain ⟨f', hsplit⟩ := value_syntaxe_split ho
  have hm1 := lookup_isSome_mem h1
  have hm2 := lookup_isSome_mem h2
  rw [List.mem_map] at hm1 hm2
  obtain ⟨q1, hq1c, hq1⟩ := hm1
  obtain ⟨q2, hq2c, hq2⟩ := hm2
  have hq1o : q1 ∈ o.2.2 := by rw [hcap]; exact hq1c
  have hq2o : q2 ∈ o.2.2 := by rw [hcap]; exact hq2c
  have honly : ∀ (br : RE) (x : String), o ∈ runRE f' br (v.data.drop k) (0 + k) →
      (∀ n : String, n ∈ VARIANT_NAMES → n ∈ groupNames br → n = x) → n1 = n2 := by
    intro br x hb hres
    have e1 := hres n1 hn1 (hq1 ▸ runRE_names f' br _ _ o hb q1 hq1o)
    have e2 := hres n2 hn2 (hq2 ▸ runRE_names f' br _ _ o hb q2 hq2o)
    rw [e1, e2]
  rcases hsplit with hb | hb | hb | hb
  · refine honly FRACTION_BRANCH "fraction" hb ?_
    intro n hn hg
    rw [VARIANT_NAMES] at hn
    rcases List.mem_cons.1 hn with rfl | hn
    · rfl
    · rcases List.mem_cons.1 hn with rfl | hn
      · exact absurd hg (by decide)
      · rcases List.mem_cons.1 hn with rfl | hn
        · exact absurd hg (by decide)
        · rcases List.mem_cons.1 hn with rfl | hn
          · exact absurd hg (by decide)
          · simp at hn
  · refine honly HEX_BRANCH "hex" hb ?_
    intro n hn hg
    rw [VARIANT_NAMES] at hn
    rcases List.mem_cons.1 hn with rfl | hn
    · exact absurd hg (by decide)
    · rcases List.mem_cons.1 hn with rfl | hn
      · rfl
      · rcases List.mem_cons.1 hn with rfl | hn
        · exact absurd hg (by decide)
        · rcases List.mem_cons.1 hn with rfl | hn
          · exact absurd hg (by decide)
          · simp at hn
  · refine honly NUMBER_BRANCH "number" hb ?_
    intro n hn hg
    rw [VARIANT_NAMES] at hn
    rcases List.mem_cons.1 hn with rfl | hn
    · exact absurd hg (by decide)
    · rcases List.mem_cons.1 hn with rfl | hn
      · exact absurd hg (by decide)
      · rcases List.mem_cons.1 hn with rfl | hn
        · rfl
        · rcases List.mem_cons.1 hn with rfl | hn
          · exact absurd hg (by decide)
          · simp at hn
  · refine honly NAMED_BRANCH "named" hb ?_
    intro n hn hg
    rw [VARIANT_NAMES] at hn
    rcases List.mem_cons.1 hn with rfl | hn
    · exact absurd hg (by decide)
    · rcases List.mem_cons.1 hn with rfl | hn
      · exact absurd hg (by decide)
      · rcases List.mem_cons.1 hn with rfl | hn
        · exact absurd hg (by decide)
        · rcases List.mem_cons.1 hn with rfl | hn
          · rfl
          · simp at hn

/-- Keys absent from an association list look up to `none`. -/
theorem lookup_eq_none_of_not_key {l : List (String × String)} {n : String}
    (h : ∀ q ∈ l, n ≠ q.1) : l.lookup n = none := by
  induction l with
  | nil => rfl
  | cons p t ih =>
    rw [List.lookup]
    have hne : (n == p.1) = false := by
      cases hx : (n == p.1) with
      | false => rfl
      | true =>
        rw [beq_iff_eq] at hx
        exact absurd hx (h p (List.mem_cons_self p t))
    rw [hne]
    exact ih fun q hq => h q (List.mem_cons.2 (Or.inr hq))

/- Concrete facts about the fixed pseudo table, checked by evaluation. -/

theorem pseudos_canonical_truthy :
    ∀ p ∈ PSEUDOS, jsPropTruthy PSEUDOS p.1 = true := by decide

theorem pseudos_alias_falsy :
    ∀ p ∈ PSEUDOS, jsPropTruthy PSEUDOS p.2 = false := by decide

theorem pseudos_inverted_lookup :
    ∀ p ∈ PSEUDOS, PSEUDOS_INVERTED.lookup p.2 = some p.1 := by decide

/-- A successful association-list lookup comes from an entry. -/
theorem mem_of_lookup_some {l : List (String × String)} {n v : String}
    (h : l.lookup n = some v) : (n, v) ∈ l := by
  induction l with
  | nil => exact absurd h (by simp [List.lookup])
  | cons p t ih =>
    obtain ⟨p1, p2⟩ := p
    rw [List.lookup] at h
    cases he : (n == p1) with
    | true =>
      rw [he] at h
      rw [beq_iff_eq] at he
      subst he
      simp only [Option.some.injEq] at h
      subst h
      exact List.mem_cons_self _ _
    | false =>
      rw [he] at h
      exact List.mem_cons.2 (Or.inr (ih h))

/-- Adequacy of the `getPseudo` else branch: when the first truthiness
test fails, the name is not an `Object.prototype` member, so the
prototype chain cannot contribute to the second property read and the
own-entry lookup models it exactly. -/
theorem else_branch_no_inherited (n : String)
    (h : jsPropTruthy PSEUDOS n = false) : n ∉ objectProtoProps := by
  intro hmem
  cases hl : PSEUDOS.lookup n with
  | none =>
    simp only [jsPropTruthy, hl] at h
    exact absurd hmem (of_decide_eq_false h)
  | some v =>
    have hv := mem_of_lookup_some hl
    have hne : ∀ q ∈ PSEUDOS, q.2 ≠ "" := by decide
    simp only [jsPropTruthy, hl] at h
    have hveq : v = "" := by
      cases hb : (v == "") with
      | true => exact beq_iff_eq.1 hb
      | false => rw [hb] at h; exact absurd h (by simp)
    exact hne (n, v) hv hveq

/-!
The claim theorems.
-/

/-- Claim C1, counterexample: the claim says `matchValue("1/0")` is
`NoMatch`, but the code returns a Number match: the unanchored
alternation falls through to the `NUMBER` alternative, whose
fractional-part separator is the any-character class, so the whole
payload `1/0` is captured as a number. -/
theorem c1_counterexample :
    Grammar.matchValue "1/0" = some (0, 3, [("number", "1/0")]) := by rfl

/-- Claim C1 as amended: `matchValue` is an unanchored search, so it
returns `NoMatch` only when no alternative matches any substring of the
payload (for example a bare slash or the empty payload); `1/0` yields a
Number match spanning the payload, and a payload with stray characters
outside the value classes can still yield a partial match, as in
`red!`, which yields the Named match `red`. -/
theorem c1_claim :
    Grammar.matchValue "1/0" = some (0, 3, [("number", "1/0")]) ∧
    Grammar.matchValue "red!" = some (0, 3, [("named", "red")]) ∧
    Grammar.matchValue "/" = none ∧
    Grammar.matchValue "" = none := by
  refine ⟨by rfl, by rfl, by rfl, by rfl⟩

/-- Claim C2: the claim (and the parameter name `isParamRequired`)
says the helper table's parameter group is optional, but `buildRegex`
appends the `?` only when `isParamRequired` is truthy and the
constructor passes a falsy flag for both tables, so a helper identifier
standing alone does not match; it matches only with a parenthesised
payload.  Evaluated at the failing input `Hidden` for helper table
containing only `Hidden`. -/
theorem c2_claim :
    grammarHelpersHidden.matchToken false "Hidden" = none ∧
    grammarHelpersHidden.matchToken false "Hidden(x)" =
      some (0, 9, [("atomicValues", "x"), ("prop", "Hidden")]) := by
  refine ⟨by rfl, by rfl⟩

/-- Claim C3: the alternation is sorted in descending lexicographic
order, hence no identifier in it is a strict initial segment of an
identifier attempted later (so a short name never shadows a longer one
sharing its head); concretely, for primary table with keys `B` and
`Bgc` the precise pattern matches `Bgc(red)` with property `Bgc`. -/
theorem c3_claim (keys : List String) :
    (sortDesc keys).Pairwise (fun a b => strLtB a b = false) ∧
    (sortDesc keys).Pairwise (fun a b => ¬ StrictPref a b) ∧
    sortDesc ["B", "Bgc"] = ["Bgc", "B"] ∧
    mGroup (grammarBBgc.matchToken false "Bgc(red)") "prop" = some "Bgc" := by
  refine ⟨sortDesc_pairwise keys, sortDesc_no_earlier_pref keys, by rfl, by rfl⟩

/-- Claim C4: the four value alternatives are tried in the fixed order
fraction, hex colour, number with unit, named; the result populates at
most one variant; `1/2` yields the Fraction match with numerator `1`
and denominator `2` even though the lower-priority Number alternative
(and the Named alternative) would also match at the same position. -/
theorem c4_claim :
    (∀ (v : String) (st en : Nat) (c : Caps),
      Grammar.matchValue v = some (st, en, c) →
      ∀ n1 ∈ VARIANT_NAMES, ∀ n2 ∈ VARIANT_NAMES,
        (c.lookup n1).isSome = true → (c.lookup n2).isSome = true → n1 = n2) ∧
    Grammar.matchValue "1/2" =
      some (0, 3, [("fraction", "1/2"), ("denominator", "2"), ("numerator", "1")]) ∧
    exec NUMBER_BRANCH "1/2" = some (0, 3, [("number", "1/2")]) ∧
    exec NAMED_BRANCH "1/2" = some (0, 1, [("named", "1")]) := by
  refine ⟨matchValue_exclusive, by rfl, by rfl, by rfl⟩

/-- Claim C4 witness: the exclusivity hypotheses are satisfiable at the
concrete match of `1/2`. -/
theorem c4_witness : ("fraction" : String) = "fraction" :=
  c4_claim.1 "1/2" 0 3
    [("fraction", "1/2"), ("denominator", "2"), ("numerator", "1")] (by rfl)
    "fraction" (by decide) "fraction" (by decide) (by rfl) (by rfl)

/-- Claim C5, counterexample: the claim's token `D_Bgc(red)!:h--md` is
not matched at all by the precise pattern, because the `PARENT`
fragment `[a-zA-Z][-_a-zA-Z0-9]+?` requires a parent of at least two
characters, so the one-letter parent `D` followed by the separator `_`
cannot parse. -/
theorem c5_counterexample :
    grammarMbBgc.matchToken false "D_Bgc(red)!:h--md" = none := by rfl

/-- Claim C5 as amended: `Mb(10px)` decomposes to property `Mb`, raw
value `10px`, and no important marker; a token with a two-character
parent, `Dd_Bgc(red)!:h--md`, decomposes with every field populated
(parent `Dd`, separator `_`, property `Bgc`, value `red`, important
marker, value pseudo `:h`, breakpoint `md`), and the pseudo alias `:h`
canonicalises to `:hover`; the one-letter-parent token of the original
claim matches nothing because `PARENT` requires length at least two. -/
theorem c5_claim :
    grammarMbBgc.matchToken false "Mb(10px)" =
      some (0, 8, [("atomicValues", "10px"), ("prop", "Mb")]) ∧
    mGroup (grammarMbBgc.matchToken false "Mb(10px)") "important" = none ∧
    grammarMbBgc.matchToken false "Dd_Bgc(red)!:h--md" =
      some (0, 18,
        [("breakPoint", "md"), ("valuePseudo", ":h"), ("important", "!"),
         ("atomicValues", "red"), ("prop", "Bgc"), ("parentSelector", "Dd_"),
         ("parentSep", "_"), ("parent", "Dd")]) ∧
    Grammar.getPseudo ":h" = some ":hover" ∧
    grammarMbBgc.matchToken false "D_Bgc(red)!:h--md" = none := by
  refine ⟨by rfl, by rfl, by rfl, by rfl, by rfl⟩

/-- Claim C6, counterexample: `constructor` is neither a canonical
name nor an alias of the table, yet `getPseudo` applied to
`constructor` returns it unchanged rather than the not-found signal,
because the tables are plain objects and the truthiness test
`PSEUDOS[pseudoName] ?` hits the inherited
`Object.prototype.constructor`. -/
theorem c6_counterexample :
    (∀ q ∈ PSEUDOS, "constructor" ≠ q.1 ∧ "constructor" ≠ q.2) ∧
    Grammar.getPseudo "constructor" = some "constructor" := by
  refine ⟨by decide, by rfl⟩

/-- Claim C6 as amended: for every entry of the pseudo table,
`getPseudo` maps the canonical name to itself and the alias to the
canonical name; a name inherited from `Object.prototype`
(`constructor`, `toString`, `valueOf`, `__proto__`, ...) is returned
unchanged instead of signalling not-found; and a name that is neither
a canonical name, nor an alias, nor such an inherited property name
maps to the not-found signal. -/
theorem c6_claim (p : String × String) (hp : p ∈ PSEUDOS) (n : String)
    (hn : ∀ q ∈ PSEUDOS, n ≠ q.1 ∧ n ≠ q.2) (hproto : n ∉ objectProtoProps) :
    Grammar.getPseudo p.1 = some p.1 ∧
    Grammar.getPseudo p.2 = some p.1 ∧
    Grammar.getPseudo n = none ∧
    (∀ m ∈ objectProtoProps, Grammar.getPseudo m = some m) := by
  refine ⟨?_, ?_, ?_, by decide⟩
  · rw [Grammar.getPseudo, if_pos (pseudos_canonical_truthy p hp)]
  · rw [Grammar.getPseudo]
    rw [pseudos_alias_falsy p hp]
    simp only [Bool.false_eq_true, if_false]
    exact pseudos_inverted_lookup p hp
  · rw [Grammar.getPseudo]
    have h1 : PSEUDOS.lookup n = none :=
      lookup_eq_none_of_not_key fun q hq => (hn q hq).1
    have h2 : jsPropTruthy PSEUDOS n = false := by
      simp only [jsPropTruthy, h1]
      exact decide_eq_false hproto
    rw [h2]
    simp only [Bool.false_eq_true, if_false]
    refine lookup_eq_none_of_not_key ?_
    intro q hq
    rw [PSEUDOS_INVERTED, List.mem_map] at hq
    obtain ⟨q0, hq0, rfl⟩ := hq
    exact (hn q0 hq0).2

/-- Claim C6 witness: instantiated at the hover entry and at the
unknown name `:bogus`, which is neither in the table nor inherited
from the prototype. -/
theorem c6_witness :
    Grammar.getPseudo ":hover" = some ":hover" ∧
    Grammar.getPseudo ":h" = some ":hover" ∧
    Grammar.getPseudo ":bogus" = none ∧
    (∀ m ∈ objectProtoProps, Grammar.getPseudo m = some m) :=
  c6_claim (":hover", ":h") (by decide) ":bogus" (by decide) (by decide)

/-- Claim C7, counterexample: with the claim's own tables (`B`, `Bgc`)
the precise pattern matches `Dd:first-child>Bgc(red)` (the validated
`PSEUDO` fragment accepts the hyphenated parent pseudo), but the fast
pattern rejects it, because `PSEUDO_SIMPLE` (`:[a-z]+`) cannot cross
the hyphen and the parent class cannot absorb the colon; so fast mode
does reject a token that precise mode accepts. -/
theorem c7_counterexample :
    grammarBBgc.matchToken false "Dd:first-child>Bgc(red)" =
      some (0, 23,
        [("atomicValues", "red"), ("prop", "Bgc"),
         ("parentSelector", "Dd:first-child>"), ("parentSep", ">"),
         ("parentPseudo", ":first-child"), ("parent", "Dd")]) ∧
    grammarBBgc.matchToken true "Dd:first-child>Bgc(red)" = none := by
  refine ⟨by rfl, by rfl⟩

/-- Claim C7 as amended: the fast-matched set is not a superset of the
precise-matched set; the two are incomparable.  Fast mode rejects the
precise-accepted token `Dd:first-child>Bgc(red)` (hyphenated parent
pseudo), while it accepts `Zz(foo)` whose property is not in the
tables and which precise mode rejects. -/
theorem c7_claim :
    (grammarBBgc.matchToken false "Dd:first-child>Bgc(red)").isSome = true ∧
    grammarBBgc.matchToken true "Dd:first-child>Bgc(red)" = none ∧
    grammarBBgc.matchToken true "Zz(foo)" =
      some (0, 7, [("atomicValues", "foo"), ("prop", "Zz")]) ∧
    grammarBBgc.matchToken false "Zz(foo)" = none := by
  refine ⟨by rfl, by rfl, by rfl, by rfl⟩

/-- Claim C8: `buildRegex` yields no fragment for an empty table, the
constructor skips the missing fragments, and the assembled full-token
pattern of the empty grammar is still a well-defined pattern: running
it is total and succeeds with an empty-width match instead of failing
or producing a malformed pattern. -/
theorem c8_claim :
    buildRegex [] false = none ∧
    buildRegex [] true = none ∧
    grammarEmpty.mainSyntaxList = [] ∧
    grammarEmpty.getMainSyntaxRE false = none ∧
    grammarEmpty.matchToken false "Bgc(red)" = some (0, 0, []) := by
  refine ⟨by rfl, by rfl, by rfl, by rfl, by rfl⟩

/-- Claim C9, counterexample: the claim says every 3- or 6-digit
case-insensitive hex payload containing an uppercase letter yields no
Color variant, but `#abc1A2` (six hex digits, one uppercase) does
yield a Color match: the engine matches the lowercase prefix `#abc`,
skips the optional second triple, and the unit lookahead passes
because the next character is a digit. -/
theorem c9_counterexample :
    Grammar.matchValue "#abc1A2" = some (0, 4, [("hex", "#abc")]) := by rfl

/-- Claim C9 as amended: hex recognition is case-sensitive, and for
every payload consisting of a hash followed by hash-free characters
whose first three are not all lowercase hex digits (in particular any
3-digit hex literal containing an uppercase letter, such as `#FFF`),
`matchValue` never populates the `hex` capture; but an uppercase
letter confined to the second triple of a 6-digit literal does not
prevent a Color match, as `#abc1A2` shows. -/
theorem c9_claim (cs : List Char) (h1 : ∀ c ∈ cs, c ≠ '#')
    (h2 : take3good cs = false) :
    mGroup (Grammar.matchValue (String.mk ('#' :: cs))) "hex" = none ∧
    Grammar.matchValue "#FFF" = some (1, 4, [("named", "FFF")]) ∧
    Grammar.matchValue "#fff" = some (0, 4, [("hex", "#fff")]) ∧
    Grammar.matchValue "#abc1A2" = some (0, 4, [("hex", "#abc")]) := by
  refine ⟨matchValue_hex_none h1 h2, by rfl, by rfl, by rfl⟩

/-- Claim C9 witness: instantiated at the digits of `#FFF`. -/
theorem c9_witness :
    mGroup (Grammar.matchValue (String.mk ('#' :: "FFF".data))) "hex" = none :=
  (c9_claim "FFF".data (by decide) (by decide)).1

/-- Claim C10: the Number alternative's fractional separator is the JS
any-character class, so the non-decimal payload `1x5` is matched as a
single Number spanning the whole input (start 0, end 3). -/
theorem c10_claim :
    Grammar.matchValue "1x5" = some (0, 3, [("number", "1x5")]) ∧
    jsDotChar 'x' = true ∧
    Grammar.matchValue "1.5" = some (0, 3, [("number", "1.5")]) := by
  refine ⟨by rfl, by rfl, by rfl⟩

end Atomizer
